import Mathlib

/-!
# LAB-HDH, Lab2: the shared-table rating aggregator

A shallow embedding of `Lab2/ex-4.1/problem-1.c` (namespace `Ex41`), of the
coordinator report of `Lab2/problem-1.c` (namespace `Problem1`), and of the name
check of `Lab1/ex5.3/main.c` (namespace `Cnew`).

Modelling conventions

* `int` is `Int`; every `int` store goes through `wrapInt`, the two's-complement
  wrap-around to 32 bits.
* `ShareData` holds the two arrays of the struct, indexed by `Fin MAX_MOVIES`.
  An array access whose index is outside `[0, MAX_MOVIES)` has no defined
  result: the loop body returns `none` there.
* A file is the `List Char` of its content; `fscanf` is modelled for the one
  format the program uses, after the C standard and glibc.
* `float` arithmetic is abstract: the operations the program uses are the
  fields of `FloatOps`, and every theorem holds for any such operations.
-/

namespace Ex41

/-! ## Data model (`problem-1.c` lines 11-19) -/

/-- The constant `MAX_MOVIES`. -/
def MAX_MOVIES : Nat := 1682

/-- The struct `ShareData`: two `int` arrays of `MAX_MOVIES` entries. -/
structure ShareData where
  sumRating : Fin MAX_MOVIES → Int
  count : Fin MAX_MOVIES → Int

/-- The table after `memset(data, 0, sizeof(ShareData))` (line 62). -/
def zeroTable : ShareData := ⟨fun _ => 0, fun _ => 0⟩

/-- Least value of a 32-bit `int`. -/
def INT_MIN : Int := -2147483648

/-- Greatest value of a 32-bit `int`. -/
def INT_MAX : Int := 2147483647

/-- The value an `int` object holds after a store of the mathematical result `x`:
two's-complement wrap-around to 32 bits. -/
def wrapInt (x : Int) : Int := (x + 2147483648) % 4294967296 - 2147483648

/-- The four locals `userId, movieId, rating, timeStamp` of
`read_and_process_file` (line 31); also a parsed record. -/
structure Vars where
  userId : Int
  movieId : Int
  rating : Int
  timeStamp : Int
deriving DecidableEq, Repr

/-- The local `index` of the loop body: `int index = movieId - 1;` (line 34). -/
def index (v : Vars) : Int := wrapInt (v.movieId - 1)

/-- The array after the compound assignment `arr[i] += r` on an `int` array:
one read of `arr[i]`, one `int` addition, one store to `arr[i]`. -/
def addAt (arr : Fin MAX_MOVIES → Int) (i : Fin MAX_MOVIES) (r : Int) : Fin MAX_MOVIES → Int :=
  Function.update arr i (wrapInt (arr i + r))

/-- The body of the `while` loop (lines 34-37) on the record held in the locals:
`data->sumRating[index] += rating; data->count[index]++;`.
The result is `none` when `index` is not a valid subscript of the arrays. -/
def loopBody (d : ShareData) (v : Vars) : Option ShareData :=
  if h : 0 ≤ index v ∧ index v < (MAX_MOVIES : Int) then
    some
      { sumRating := addAt d.sumRating ⟨(index v).toNat, by omega⟩ v.rating
        count := addAt d.count ⟨(index v).toNat, by omega⟩ 1 }
  else
    none

/-- The worker loop seen on the sequence of records that `fscanf` stores into
the locals: the loop body run once per record, in order, stopping with `none`
at the first invalid subscript. -/
def workerFold (d : ShareData) : List Vars → Option ShareData
  | [] => some d
  | v :: vs =>
    match loopBody d v with
    | none => none
    | some d' => workerFold d' vs

/-- Two partitions processed one after the other on the same table. -/
def runTwo (d : ShareData) (A B : List Vars) : Option ShareData :=
  match workerFold d A with
  | none => none
  | some d' => workerFold d' B

/-! ## `fscanf(file, "%d\t%d\t%d\t%d", &userId, &movieId, &rating, &timeStamp)` -/

/-- The macro `EOF`. -/
def EOF : Int := -1

/-- The function `isspace` in the C locale: space, `\t`, `\n`, `\v`, `\f`, `\r`. -/
def isspace (c : Char) : Bool :=
  c = ' ' || c = '\t' || c = '\n' || c = Char.ofNat 11 || c = Char.ofNat 12 || c = '\r'

/-- The function `isdigit`. -/
def isdigit (c : Char) : Bool := decide (48 ≤ c.toNat ∧ c.toNat ≤ 57)

/-- Input white space is read up to the first character that is not white space,
which stays unread. -/
def skipSpaces : List Char → List Char
  | [] => []
  | c :: cs => if isspace c = true then skipSpaces cs else c :: cs

/-- The longest run of decimal digits at the head of the input: how many were
read, their value on top of `acc`, and the unread rest. -/
def scanDigits : List Char → Nat → Nat → Nat × Nat × List Char
  | [], n, acc => (n, acc, [])
  | c :: cs, n, acc =>
    if isdigit c = true then scanDigits cs (n + 1) (10 * acc + (c.toNat - 48)) else (n, acc, c :: cs)

/-- Least value of a 64-bit `long`. -/
def LONG_MIN : Int := -9223372036854775808

/-- Greatest value of a 64-bit `long`. -/
def LONG_MAX : Int := 9223372036854775807

/-- The result of `strtol` on a digit string of value `x`: saturated to `long`. -/
def clampLong (x : Int) : Int :=
  if x < LONG_MIN then LONG_MIN else if LONG_MAX < x then LONG_MAX else x

/-- Outcome of one `%d` conversion. -/
inductive Conv where
  | inputFailure
  | matchFailure (rest : List Char)
  | ok (val : Int) (rest : List Char)
deriving DecidableEq, Repr

/-- One `%d` conversion: leading white space is skipped; end of input there is an
input failure; then an optional sign and the longest run of decimal digits are
read; without a digit the conversion is a matching failure (a sign that was read
stays consumed); otherwise the value is converted as by `strtol` and stored into
an `int`. -/
def scanInt (s : List Char) : Conv :=
  match skipSpaces s with
  | [] => Conv.inputFailure
  | c :: cs =>
    match scanDigits (if c = '-' ∨ c = '+' then cs else c :: cs) 0 0 with
    | (0, _, rest) => Conv.matchFailure rest
    | (_ + 1, val, rest) =>
      Conv.ok (wrapInt (clampLong (if c = '-' then -(val : Int) else (val : Int)))) rest

/-- A directive of a `scanf` format: `%d`, or white space. -/
inductive Directive where
  | d
  | space
deriving DecidableEq, Repr

/-- The format string `"%d\t%d\t%d\t%d"` of line 32. -/
def format : List Directive :=
  [Directive.d, Directive.space, Directive.d, Directive.space, Directive.d, Directive.space,
    Directive.d]

/-- The store through the `k`-th pointer argument of the call:
`&userId, &movieId, &rating, &timeStamp`. -/
def store (v : Vars) (k : Nat) (x : Int) : Vars :=
  match k with
  | 0 => { v with userId := x }
  | 1 => { v with movieId := x }
  | 2 => { v with rating := x }
  | _ => { v with timeStamp := x }

/-- What a call of `fscanf` leaves: its return value, the locals, the unread input. -/
structure ScanResult where
  ret : Int
  vars : Vars
  rest : List Char
deriving DecidableEq, Repr

/-- The directives of a format run in order, `done` counting the assignments made.
An input failure returns `EOF` when nothing was assigned and `done` otherwise; a
matching failure returns `done`; the end of the format returns `done`. -/
def vfscanf : List Directive → List Char → Nat → Vars → ScanResult
  | [], s, done, v => ⟨done, v, s⟩
  | Directive.space :: f, s, done, v => vfscanf f (skipSpaces s) done v
  | Directive.d :: f, s, done, v =>
    match scanInt s with
    | Conv.inputFailure => ⟨if done = 0 then EOF else done, v, []⟩
    | Conv.matchFailure r => ⟨done, v, r⟩
    | Conv.ok x r => vfscanf f r (done + 1) (store v done x)

/-- The call of line 32 on the unread input `s` with locals `v`. -/
def fscanf (s : List Char) (v : Vars) : ScanResult := vfscanf format s 0 v

/-! ## The worker `read_and_process_file` (lines 21-43) -/

/-- How a run of a loop ends: with a result, with an access outside an array,
or still running when the iteration budget is spent. -/
inductive Outcome (α : Type) where
  | done (a : α)
  | undefined
  | outOfFuel

/-- The `while` loop of lines 32-38: as long as `fscanf` returns something other
than `EOF`, the body runs on the locals. `fuel` bounds the number of calls of
`fscanf`. -/
def workerLoop : Nat → List Char → Vars → ShareData → Outcome ShareData
  | 0, _, _, _ => Outcome.outOfFuel
  | fuel + 1, s, v, d =>
    if (fscanf s v).ret ≠ EOF then
      match loopBody d (fscanf s v).vars with
      | none => Outcome.undefined
      | some d' => workerLoop fuel (fscanf s v).rest (fscanf s v).vars d'
    else
      Outcome.done d

/-- The macro `EXIT_FAILURE`. -/
def EXIT_FAILURE : Int := 1

/-- The worker: `file` is the content of the partition, `none` when `fopen`
returns `NULL`; `init` is what the uninitialised locals hold at entry. The result
is the exit status of the worker process with the table it leaves. -/
def read_and_process_file (fuel : Nat) (file : Option (List Char)) (init : Vars)
    (d : ShareData) : Outcome (Int × ShareData) :=
  match file with
  | none => Outcome.done (EXIT_FAILURE, d)
  | some s =>
    match workerLoop fuel s init d with
    | Outcome.done d' => Outcome.done (0, d')
    | Outcome.undefined => Outcome.undefined
    | Outcome.outOfFuel => Outcome.outOfFuel

/-! ## The coordinator `main` (lines 45-125) -/

/-- The `float` operations the program uses. -/
structure FloatOps (F : Type) where
  /-- The conversion `(float) n` of an `int`. -/
  ofInt : Int → F
  /-- The division of two `float` values. -/
  div : F → F → F
  /-- The constant `0.0` stored into a `float`. -/
  zero : F

/-- Exact rational arithmetic as an instance of the `float` operations. -/
def ratOps : FloatOps ℚ := ⟨fun n => (n : ℚ), fun a b => a / b, 0⟩

/-- What the coordinator does that the outside sees, in program order. -/
inductive Event (F : Type) where
  | perror (msg : String)
  | memset
  | fork
  | waitpid (child : Nat)
  | printf (i : Nat) (avg : F)
  | shmdt
  | shmctl_rmid

/-- The macro `WIFEXITED`: `(status & 0x7f) == 0`. -/
def WIFEXITED (status : Nat) : Bool := status % 128 == 0

/-- The macro `WEXITSTATUS`: `(status & 0xff00) >> 8`. -/
def WEXITSTATUS (status : Nat) : Nat := status / 256 % 256

/-- A `for (int i = 0; i < MAX_MOVIES; i++)` loop as a transformer of the state
that its body updates. -/
@[irreducible]
def forEachIndex {σ : Type} (body : Fin MAX_MOVIES → σ → σ) (s : σ) : σ :=
  (List.finRange MAX_MOVIES).foldl (fun s i => body i s) s

/-- One iteration of the report loop (lines 109-118) on the output written so
far: `avg_ratings[i]` is assigned and then printed, in either branch. -/
def reportStep {F : Type} (fl : FloatOps F) (d : ShareData) (i : Fin MAX_MOVIES)
    (out : List (Event F)) : List (Event F) :=
  if d.count i > 0 then
    out ++ [Event.printf i.val (fl.div (fl.ofInt (d.sumRating i)) (fl.ofInt (d.count i)))]
  else
    out ++ [Event.printf i.val fl.zero]

/-- The report loop of lines 105-119. -/
def report {F : Type} (fl : FloatOps F) (d : ShareData) : List (Event F) :=
  forEachIndex (reportStep fl d) []

/-- What the coordinator gets from the system during a run. -/
structure Env where
  /-- The return value of `shmget`. -/
  shmid : Int
  /-- Whether `shmat` returns something other than `(void *)-1`. -/
  shmatOk : Bool
  /-- The return value of the first `fork`. -/
  pid1 : Int
  /-- The return value of the second `fork`. -/
  pid2 : Int
  /-- The status stored by `waitpid(pid1, &status, 0)`. -/
  status1 : Nat
  /-- The status stored by `waitpid(pid2, &status, 0)`. -/
  status2 : Nat
  /-- The content of the shared table when the report loop reads it. -/
  table : ShareData

/-- How a run of `main` ends: as a worker, in the branch where `fork` returned 0,
or by leaving the process with an exit status after some events. -/
inductive MainResult (F : Type) where
  | worker (fileName : String)
  | exit (events : List (Event F)) (code : Int)

/-- The function `main` of `Lab2/ex-4.1/problem-1.c`. -/
def main {F : Type} (fl : FloatOps F) (e : Env) : MainResult F :=
  if e.shmid < 0 then
    MainResult.exit [Event.perror "Shared-memory failed"] 1
  else if e.shmatOk = false then
    MainResult.exit [Event.perror "shmat failed"] 1
  else if e.pid1 = 0 then
    MainResult.worker "movie-100k_1.txt"
  else if e.pid1 < 0 then
    MainResult.exit [Event.memset, Event.fork, Event.perror "First fork failed"] 1
  else if e.pid2 = 0 then
    MainResult.worker "movie-100k_2.txt"
  else if e.pid2 < 0 then
    MainResult.exit [Event.memset, Event.fork, Event.fork, Event.perror "Second fork failed"] 1
  else if (WIFEXITED e.status1 && WEXITSTATUS e.status1 != 0) = true then
    MainResult.exit
      [Event.memset, Event.fork, Event.fork, Event.waitpid 1, Event.shmdt, Event.shmctl_rmid] 1
  else if (WIFEXITED e.status2 && WEXITSTATUS e.status2 != 0) = true then
    MainResult.exit
      [Event.memset, Event.fork, Event.fork, Event.waitpid 1, Event.waitpid 2, Event.shmdt,
        Event.shmctl_rmid] 1
  else
    MainResult.exit
      ([Event.memset, Event.fork, Event.fork, Event.waitpid 1, Event.waitpid 2]
        ++ report fl e.table ++ [Event.shmdt, Event.shmctl_rmid]) 0

/-- The report lines among the events: the pairs `(i, avg)` printed. -/
def printed {F : Type} : List (Event F) → List (Nat × F)
  | [] => []
  | Event.printf i a :: es => (i, a) :: printed es
  | _ :: es => printed es

/-- Whether `shmctl(shmid, IPC_RMID, NULL)` is among the events. -/
def released {F : Type} : List (Event F) → Bool
  | [] => false
  | Event.shmctl_rmid :: _ => true
  | _ :: es => released es

/-- The sum of `count[i]` over all indices of the table. -/
def totalCount (d : ShareData) : Int := ∑ i : Fin MAX_MOVIES, d.count i

/-! ## Records of the input format, in the words of the specification

"One record per line, tab-separated fields `userId\tmovieId\trating\ttimestamp`,
all integers." These definitions follow the specification, not the program; they
count the syntactically valid records of a partition. -/

/-- The pieces of a text between occurrences of the separator `sep`. -/
def specSplit (sep : Char) : List Char → List (List Char)
  | [] => [[]]
  | c :: cs =>
    if c = sep then [] :: specSplit sep cs
    else
      match specSplit sep cs with
      | [] => [[c]]
      | f :: fs => (c :: f) :: fs

/-- An integer field: an optional sign followed by at least one decimal digit. -/
def specIsInteger (f : List Char) : Bool :=
  match f with
  | [] => false
  | c :: cs =>
    if c = '-' ∨ c = '+' then !cs.isEmpty && cs.all isdigit else (c :: cs).all isdigit

/-- A syntactically valid record: a line holding four integer fields. -/
def specIsRecord (line : List Char) : Bool :=
  match specSplit '\t' line with
  | [a, b, c, e] => specIsInteger a && specIsInteger b && specIsInteger c && specIsInteger e
  | _ => false

/-- The number of syntactically valid records among the lines of a partition. -/
def specRecordCount (s : List Char) : Nat :=
  ((specSplit '\n' s).filter specIsRecord).length

/-! ## Two workers on the shared table, step by step

Each worker is the loop of lines 32-38 cut at its accesses to the shared table:
the call of `fscanf` touches only the worker's own file and locals; the statement
`data->sumRating[index] += rating` is a read of the entry followed by a store of
the sum, and `data->count[index]++` is a read followed by a store. Nothing in the
program orders the accesses of one worker with respect to those of the other, so
a run of the two workers is given by a schedule that names, step after step, the
worker that moves. -/

/-- Where a worker stands in the loop. -/
inductive Pc where
  | scan
  | loadSum
  | storeSum
  | loadCount
  | storeCount
  | exited
deriving DecidableEq, Repr

/-- A worker process: its position, the unread input, its locals, and the value
it has read from the table and not yet stored back. -/
structure Proc where
  pc : Pc
  input : List Char
  v : Vars
  reg : Int

/-- A worker at the head of the loop with its partition unread. -/
def startProc (file : List Char) (init : Vars) : Proc := ⟨Pc.scan, file, init, 0⟩

/-- One step of a worker on the shared table; `none` on an access outside the
arrays. A worker that has left the loop stays where it is. -/
def stepProc (p : Proc) (d : ShareData) : Option (Proc × ShareData) :=
  match p.pc with
  | Pc.scan =>
    if (fscanf p.input p.v).ret ≠ EOF then
      some (⟨Pc.loadSum, (fscanf p.input p.v).rest, (fscanf p.input p.v).vars, p.reg⟩, d)
    else
      some (⟨Pc.exited, (fscanf p.input p.v).rest, (fscanf p.input p.v).vars, p.reg⟩, d)
  | Pc.loadSum =>
    if h : 0 ≤ index p.v ∧ index p.v < (MAX_MOVIES : Int) then
      some (⟨Pc.storeSum, p.input, p.v, d.sumRating ⟨(index p.v).toNat, by omega⟩⟩, d)
    else none
  | Pc.storeSum =>
    if h : 0 ≤ index p.v ∧ index p.v < (MAX_MOVIES : Int) then
      some (⟨Pc.loadCount, p.input, p.v, p.reg⟩,
        ⟨Function.update d.sumRating ⟨(index p.v).toNat, by omega⟩ (wrapInt (p.reg + p.v.rating)),
          d.count⟩)
    else none
  | Pc.loadCount =>
    if h : 0 ≤ index p.v ∧ index p.v < (MAX_MOVIES : Int) then
      some (⟨Pc.storeCount, p.input, p.v, d.count ⟨(index p.v).toNat, by omega⟩⟩, d)
    else none
  | Pc.storeCount =>
    if h : 0 ≤ index p.v ∧ index p.v < (MAX_MOVIES : Int) then
      some (⟨Pc.scan, p.input, p.v, p.reg⟩,
        ⟨d.sumRating,
          Function.update d.count ⟨(index p.v).toNat, by omega⟩ (wrapInt (p.reg + 1))⟩)
    else none
  | Pc.exited => some (p, d)

/-- The two workers and the table they share. -/
structure Sys where
  w1 : Proc
  w2 : Proc
  table : ShareData

/-- A run along a schedule: `false` moves the first worker, `true` the second. -/
def runSchedule : List Bool → Sys → Option Sys
  | [], s => some s
  | false :: rest, s =>
    match stepProc s.w1 s.table with
    | none => none
    | some (p, d) => runSchedule rest ⟨p, s.w2, d⟩
  | true :: rest, s =>
    match stepProc s.w2 s.table with
    | none => none
    | some (p, d) => runSchedule rest ⟨s.w1, p, d⟩

/-- A worker alone on the table for `n` steps. -/
def runAlone : Nat → Proc → ShareData → Option (Proc × ShareData)
  | 0, p, d => some (p, d)
  | n + 1, p, d =>
    match stepProc p d with
    | none => none
    | some (p', d') => runAlone n p' d'

end Ex41

namespace Problem1

/-! ## The report of `Lab2/problem-1.c` (lines 91-102)

The declarations of `MAX_MOVIES` and `ShareData` in this file are those of
`Lab2/ex-4.1/problem-1.c`, character for character. -/

open Ex41

/-- One iteration of the first loop (lines 93-97): `avg_ratings[i]` is assigned
only under `data->count[i] > 0`. -/
def averageStep {F : Type} (fl : FloatOps F) (d : ShareData) (i : Fin MAX_MOVIES)
    (avg_ratings : Fin MAX_MOVIES → F) : Fin MAX_MOVIES → F :=
  if d.count i > 0 then
    Function.update avg_ratings i (fl.div (fl.ofInt (d.sumRating i)) (fl.ofInt (d.count i)))
  else
    avg_ratings

/-- One iteration of the second loop (lines 99-102): `avg_ratings[i]` is printed. -/
def printStep {F : Type} (avg_ratings : Fin MAX_MOVIES → F) (i : Fin MAX_MOVIES)
    (out : List (Event F)) : List (Event F) :=
  out ++ [Event.printf i (avg_ratings i)]

/-- The two loops of lines 91-102: `garbage` is what the uninitialised local array
`avg_ratings` holds before the first loop. -/
def report {F : Type} (fl : FloatOps F) (d : ShareData) (garbage : Fin MAX_MOVIES → F) :
    List (Event F) :=
  forEachIndex (printStep (forEachIndex (averageStep fl d) garbage)) []

end Problem1

namespace Cnew

/-! ## `isValidProjectName` of `Lab1/ex5.3/main.c` (lines 80-102)

A C string is the `List Char` of the characters before its terminating NUL.
The two branches of the `#if USE_REGEX == 1` are the two values of `useRegex`.
`regcomp` and `regexec` are modelled for the constructs of the one pattern the
program compiles, `"^[a-zA-Z0-9-]+$"` with `REG_EXTENDED`, in the C locale. -/

/-- The test of lines 93-96 on one character: a letter, a digit or a hyphen. -/
def isNameChar (c : Char) : Bool :=
  ('a' ≤ c && c ≤ 'z') || ('A' ≤ c && c ≤ 'Z') || ('0' ≤ c && c ≤ '9') || c = '-'

/-- The `for` loop of lines 92-99: 1 at the first character that fails the test,
0 when the terminating NUL is reached. -/
def nameLoop : List Char → Int
  | [] => 0
  | c :: cs => if !isNameChar c then 1 else nameLoop cs

/-- A bracket expression: its ranges and its single characters. -/
structure Bracket where
  ranges : List (Char × Char)
  singles : List Char

/-- Whether a character belongs to a bracket expression. -/
def Bracket.contains (b : Bracket) (c : Char) : Bool :=
  b.ranges.any (fun r => r.1 ≤ c && c ≤ r.2) || b.singles.any (fun x => c = x)

/-- The pieces of the compiled pattern: `^`, `$`, and a bracket expression under `+`. -/
inductive Node where
  | bol
  | eol
  | plus (b : Bracket)

/-- The pattern `"^[a-zA-Z0-9-]+$"` of line 83. -/
def pattern : List Node :=
  [Node.bol, Node.plus ⟨[('a', 'z'), ('A', 'Z'), ('0', '9')], ['-']⟩, Node.eol]

/-- One or more characters of the bracket expression, followed by what `k` accepts. -/
def plusMatch (b : Bracket) (k : List Char → Bool) : List Char → Bool
  | [] => false
  | c :: cs => b.contains c && (k cs || plusMatch b k cs)

/-- Whether the pattern matches at the current position: `atStart` tells whether
the position is the beginning of the string, the list is the text from the
position on. `^` matches only at the beginning of the string and `$` only at
its end (`REG_NEWLINE` is not set). -/
def matchAt : List Node → Bool → List Char → Bool
  | [], _, _ => true
  | Node.bol :: r, atStart, s => atStart && matchAt r atStart s
  | Node.eol :: r, atStart, s => s.isEmpty && matchAt r atStart s
  | Node.plus b :: r, _, s => plusMatch b (matchAt r false) s

/-- Whether the pattern matches at the current position or at a later one. -/
def searchFrom (p : List Node) : Bool → List Char → Bool
  | atStart, [] => matchAt p atStart []
  | atStart, c :: cs => matchAt p atStart (c :: cs) || searchFrom p false cs

/-- The macro `REG_NOMATCH`. -/
def REG_NOMATCH : Int := 1

/-- The call `regexec(&regex, name, 0, NULL, 0)`: 0 when the pattern matches
somewhere in the string, `REG_NOMATCH` otherwise. -/
def regexec (p : List Node) (name : List Char) : Int :=
  if searchFrom p true name then 0 else REG_NOMATCH

/-- The function `isValidProjectName`: `useRegex` is the value of `USE_REGEX`,
`regcompRet` the return value of `regcomp` (0 on success). -/
def isValidProjectName (useRegex : Bool) (regcompRet : Int) (name : List Char) : Int :=
  if useRegex then
    if regcompRet ≠ 0 then 1
    else if regexec pattern name = 0 then 0
    else -1
  else
    nameLoop name

end Cnew

namespace Ex41

/-! ## Arithmetic of `wrapInt` -/

theorem wrapInt_of_range (x : Int) (h0 : INT_MIN ≤ x) (h1 : x ≤ INT_MAX) : wrapInt x = x := by
  unfold wrapInt
  unfold INT_MIN at h0
  unfold INT_MAX at h1
  omega

theorem wrapInt_add_wrapInt (a b : Int) : wrapInt (wrapInt a + b) = wrapInt (a + b) := by
  unfold wrapInt
  omega

/-! ## The loop body -/

theorem loopBody_eq_some (d : ShareData) (v : Vars)
    (h : 0 ≤ index v ∧ index v < (MAX_MOVIES : Int)) :
    loopBody d v = some
      { sumRating := addAt d.sumRating ⟨(index v).toNat, by omega⟩ v.rating
        count := addAt d.count ⟨(index v).toNat, by omega⟩ 1 } := by
  unfold loopBody
  rw [dif_pos h]

theorem loopBody_eq_none (d : ShareData) (v : Vars)
    (h : ¬ (0 ≤ index v ∧ index v < (MAX_MOVIES : Int))) : loopBody d v = none := by
  unfold loopBody
  rw [dif_neg h]

theorem addAt_same (arr : Fin MAX_MOVIES → Int) (i : Fin MAX_MOVIES) (r : Int) :
    addAt arr i r i = wrapInt (arr i + r) := by
  simp [addAt]

theorem addAt_other (arr : Fin MAX_MOVIES → Int) (i j : Fin MAX_MOVIES) (r : Int) (h : j ≠ i) :
    addAt arr i r j = arr j := by
  simp [addAt, Function.update_noteq h]

theorem addAt_comm (arr : Fin MAX_MOVIES → Int) (i j : Fin MAX_MOVIES) (a b : Int) :
    addAt (addAt arr i a) j b = addAt (addAt arr j b) i a := by
  funext k
  by_cases hij : i = j
  · subst hij
    by_cases hk : k = i
    · subst hk
      rw [addAt_same, addAt_same, addAt_same, addAt_same, wrapInt_add_wrapInt,
        wrapInt_add_wrapInt, add_right_comm]
    · rw [addAt_other _ _ _ _ hk, addAt_other _ _ _ _ hk, addAt_other _ _ _ _ hk,
        addAt_other _ _ _ _ hk]
  · have hji : j ≠ i := fun e => hij e.symm
    by_cases hki : k = i
    · subst hki
      rw [addAt_other _ _ _ _ hij, addAt_same, addAt_same, addAt_other _ _ _ _ hij]
    · by_cases hkj : k = j
      · subst hkj
        rw [addAt_same, addAt_other _ _ _ _ hki, addAt_other _ _ _ _ hki, addAt_same]
      · rw [addAt_other _ _ _ _ hkj, addAt_other _ _ _ _ hki, addAt_other _ _ _ _ hki,
          addAt_other _ _ _ _ hkj]

/-- C1: for every table and every parsed record whose `index = movieId - 1` lies
in `[0, MAX_MOVIES)`, the loop body succeeds, adds `rating` to `sumRating[index]`
and `1` to `count[index]` (in `int` arithmetic, hence exactly whenever the result
is representable), and leaves every other entry of both arrays unchanged. -/
theorem loopBody_increments (d : ShareData) (v : Vars)
    (h0 : 0 ≤ index v) (h1 : index v < (MAX_MOVIES : Int)) :
    ∃ d' : ShareData, loopBody d v = some d' ∧
      d'.sumRating ⟨(index v).toNat, by omega⟩
        = wrapInt (d.sumRating ⟨(index v).toNat, by omega⟩ + v.rating) ∧
      d'.count ⟨(index v).toNat, by omega⟩
        = wrapInt (d.count ⟨(index v).toNat, by omega⟩ + 1) ∧
      (INT_MIN ≤ d.sumRating ⟨(index v).toNat, by omega⟩ + v.rating →
        d.sumRating ⟨(index v).toNat, by omega⟩ + v.rating ≤ INT_MAX →
        d'.sumRating ⟨(index v).toNat, by omega⟩
          = d.sumRating ⟨(index v).toNat, by omega⟩ + v.rating) ∧
      (INT_MIN ≤ d.count ⟨(index v).toNat, by omega⟩ + 1 →
        d.count ⟨(index v).toNat, by omega⟩ + 1 ≤ INT_MAX →
        d'.count ⟨(index v).toNat, by omega⟩ = d.count ⟨(index v).toNat, by omega⟩ + 1) ∧
      ∀ j : Fin MAX_MOVIES, (j : Int) ≠ index v →
        d'.sumRating j = d.sumRating j ∧ d'.count j = d.count j := by
  refine ⟨_, loopBody_eq_some d v ⟨h0, h1⟩, ?_, ?_, ?_, ?_, ?_⟩
  · exact addAt_same _ _ _
  · exact addAt_same _ _ _
  · intro a b
    show addAt _ _ _ _ = _
    rw [addAt_same]
    exact wrapInt_of_range _ a b
  · intro a b
    show addAt _ _ _ _ = _
    rw [addAt_same]
    exact wrapInt_of_range _ a b
  · intro j hj
    have hne : j ≠ ⟨(index v).toNat, by omega⟩ := by
      intro e
      apply hj
      rw [e]
      simp only [Int.toNat_of_nonneg h0]
    exact ⟨addAt_other _ _ _ _ hne, addAt_other _ _ _ _ hne⟩

/-- Witness of `loopBody_increments` on the zero table with the record
`(1, 5, 4, 100)`. -/
theorem loopBody_increments_witness :
    (0 ≤ index ⟨1, 5, 4, 100⟩ ∧ index ⟨1, 5, 4, 100⟩ < (MAX_MOVIES : Int)) ∧
    ∃ d' : ShareData, loopBody zeroTable ⟨1, 5, 4, 100⟩ = some d' ∧
      d'.sumRating ⟨4, by decide⟩ = 4 ∧ d'.count ⟨4, by decide⟩ = 1 := by
  have hr : 0 ≤ index ⟨1, 5, 4, 100⟩ ∧ index ⟨1, 5, 4, 100⟩ < (MAX_MOVIES : Int) := by decide
  obtain ⟨d', hd, hs, hc, _⟩ := loopBody_increments zeroTable ⟨1, 5, 4, 100⟩ hr.1 hr.2
  refine ⟨hr, d', hd, ?_, ?_⟩
  · have e : (⟨(index ⟨1, 5, 4, 100⟩).toNat, by decide⟩ : Fin MAX_MOVIES) = ⟨4, by decide⟩ := by
      decide
    rw [e] at hs
    rw [hs]
    decide
  · have e : (⟨(index ⟨1, 5, 4, 100⟩).toNat, by decide⟩ : Fin MAX_MOVIES) = ⟨4, by decide⟩ := by
      decide
    rw [e] at hc
    rw [hc]
    decide

/-! ## Order independence of the fold -/

theorem loopBody_swap (d : ShareData) (v w : Vars) :
    (loopBody d v).bind (fun d' => loopBody d' w)
      = (loopBody d w).bind (fun d' => loopBody d' v) := by
  by_cases hv : 0 ≤ index v ∧ index v < (MAX_MOVIES : Int)
  · by_cases hw : 0 ≤ index w ∧ index w < (MAX_MOVIES : Int)
    · rw [loopBody_eq_some d v hv, loopBody_eq_some d w hw]
      simp only [Option.some_bind]
      rw [loopBody_eq_some _ w hw, loopBody_eq_some _ v hv]
      rw [addAt_comm d.sumRating _ _ v.rating w.rating, addAt_comm d.count _ _ 1 1]
    · rw [loopBody_eq_some d v hv, loopBody_eq_none d w hw]
      simp only [Option.some_bind, Option.none_bind]
      exact loopBody_eq_none _ w hw
  · rw [loopBody_eq_none d v hv]
    simp only [Option.none_bind]
    by_cases hw : 0 ≤ index w ∧ index w < (MAX_MOVIES : Int)
    · rw [loopBody_eq_some d w hw]
      simp only [Option.some_bind]
      exact (loopBody_eq_none _ v hv).symm
    · rw [loopBody_eq_none d w hw]
      rfl

theorem workerFold_cons (d : ShareData) (v : Vars) (vs : List Vars) :
    workerFold d (v :: vs) = (loopBody d v).bind (fun d' => workerFold d' vs) := by
  cases h : loopBody d v <;> simp [workerFold, h]

theorem workerFold_append (d : ShareData) (A B : List Vars) :
    workerFold d (A ++ B) = runTwo d A B := by
  induction A generalizing d with
  | nil => simp [runTwo, workerFold]
  | cons v vs ih =>
    rw [List.cons_append, workerFold_cons]
    unfold runTwo
    rw [workerFold_cons]
    cases h : loopBody d v with
    | none => simp
    | some d' =>
      simp only [Option.some_bind]
      rw [ih d']
      rfl

theorem workerFold_perm {l₁ l₂ : List Vars} (p : l₁.Perm l₂) (d : ShareData) :
    workerFold d l₁ = workerFold d l₂ := by
  induction p generalizing d with
  | nil => rfl
  | cons v _ ih =>
    rw [workerFold_cons, workerFold_cons]
    cases loopBody d v with
    | none => rfl
    | some d' => exact ih d'
  | swap v w l =>
    rw [workerFold_cons, workerFold_cons]
    have e := loopBody_swap d w v
    cases hw : loopBody d w with
    | none =>
      rw [hw] at e
      simp only [Option.none_bind] at e ⊢
      cases hv : loopBody d v with
      | none => rfl
      | some d₁ =>
        rw [hv] at e
        simp only [Option.some_bind] at e ⊢
        rw [workerFold_cons, ← e]
        rfl
    | some d₂ =>
      rw [hw] at e
      simp only [Option.some_bind] at e ⊢
      rw [workerFold_cons, e]
      cases hv : loopBody d v with
      | none => rfl
      | some d₁ =>
        simp only [Option.some_bind]
        rw [workerFold_cons]
  | trans _ _ ih₁ ih₂ => exact (ih₁ d).trans (ih₂ d)

theorem workerFold_isSome (d : ShareData) (l : List Vars)
    (h : ∀ v ∈ l, 0 ≤ index v ∧ index v < (MAX_MOVIES : Int)) :
    (workerFold d l).isSome = true := by
  induction l generalizing d with
  | nil => rfl
  | cons v vs ih =>
    rw [workerFold_cons, loopBody_eq_some d v (h v (List.mem_cons_self v vs))]
    simp only [Option.some_bind]
    exact ih _ (fun u hu => h u (List.mem_cons_of_mem v hu))

/-- C3: aggregation is order-independent. For every starting table and every two
partitions `A` and `B` of parsed records with in-range indices, the fold over
`A` and then `B` produces a table, the fold over `B` and then `A` produces the
same table, and so does the fold over any permutation of the records of `A`
followed by `B`. -/
theorem workerFold_order_independent (d : ShareData) (A B : List Vars)
    (hA : ∀ v ∈ A, 0 ≤ index v ∧ index v < (MAX_MOVIES : Int))
    (hB : ∀ v ∈ B, 0 ≤ index v ∧ index v < (MAX_MOVIES : Int)) :
    ∃ t : ShareData, runTwo d A B = some t ∧ runTwo d B A = some t ∧
      ∀ P : List Vars, P.Perm (A ++ B) → workerFold d P = some t := by
  have hAB : ∀ v ∈ A ++ B, 0 ≤ index v ∧ index v < (MAX_MOVIES : Int) := by
    intro v hv
    rcases List.mem_append.mp hv with h | h
    · exact hA v h
    · exact hB v h
  have hs := workerFold_isSome d (A ++ B) hAB
  obtain ⟨t, ht⟩ := Option.isSome_iff_exists.mp hs
  refine ⟨t, ?_, ?_, ?_⟩
  · rw [← workerFold_append]
    exact ht
  · rw [← workerFold_append, workerFold_perm List.perm_append_comm d]
    exact ht
  · intro P hP
    rw [workerFold_perm hP d]
    exact ht

/-- Witness of `workerFold_order_independent`: partitions `[(1,5,4,100), (2,7,3,101)]`
and `[(3,5,2,102)]` on the zero table. -/
theorem workerFold_order_independent_witness :
    ∃ t : ShareData,
      runTwo zeroTable [⟨1, 5, 4, 100⟩, ⟨2, 7, 3, 101⟩] [⟨3, 5, 2, 102⟩] = some t ∧
      runTwo zeroTable [⟨3, 5, 2, 102⟩] [⟨1, 5, 4, 100⟩, ⟨2, 7, 3, 101⟩] = some t ∧
      ∀ P : List Vars, P.Perm ([⟨1, 5, 4, 100⟩, ⟨2, 7, 3, 101⟩] ++ [⟨3, 5, 2, 102⟩]) →
        workerFold zeroTable P = some t :=
  workerFold_order_independent zeroTable [⟨1, 5, 4, 100⟩, ⟨2, 7, 3, 101⟩] [⟨3, 5, 2, 102⟩]
    (by decide) (by decide)

/-! ## The report loop -/

theorem reportStep_eq {F : Type} (fl : FloatOps F) (d : ShareData) (i : Fin MAX_MOVIES)
    (out : List (Event F)) :
    reportStep fl d i out = out ++ [Event.printf i.val
      (if d.count i > 0 then fl.div (fl.ofInt (d.sumRating i)) (fl.ofInt (d.count i))
        else fl.zero)] := by
  unfold reportStep
  by_cases h : d.count i > 0
  · rw [if_pos h, if_pos h]
  · rw [if_neg h, if_neg h]

theorem foldl_reportStep {F : Type} (fl : FloatOps F) (d : ShareData)
    (l : List (Fin MAX_MOVIES)) (out : List (Event F)) :
    l.foldl (fun s i => reportStep fl d i s) out
      = out ++ l.map (fun (i : Fin MAX_MOVIES) => Event.printf i.val
          (if d.count i > 0 then fl.div (fl.ofInt (d.sumRating i)) (fl.ofInt (d.count i))
            else fl.zero)) := by
  induction l generalizing out with
  | nil => rw [List.foldl_nil, List.map_nil, List.append_nil]
  | cons i l ih =>
    rw [List.foldl_cons, ih, reportStep_eq, List.map_cons, List.append_assoc,
      List.singleton_append]

theorem forEachIndex_eq {σ : Type} (body : Fin MAX_MOVIES → σ → σ) (s : σ) :
    forEachIndex body s = (List.finRange MAX_MOVIES).foldl (fun s i => body i s) s := by
  delta forEachIndex
  exact Eq.refl _

theorem report_eq_map {F : Type} (fl : FloatOps F) (d : ShareData) :
    report fl d
      = (List.finRange MAX_MOVIES).map (fun (i : Fin MAX_MOVIES) => Event.printf i.val
          (if d.count i > 0 then fl.div (fl.ofInt (d.sumRating i)) (fl.ofInt (d.count i))
            else fl.zero)) := by
  delta report
  rw [forEachIndex_eq, foldl_reportStep, List.nil_append]

theorem finRange_getElem? (n : Nat) (i : Fin n) : (List.finRange n)[i.val]? = some i := by
  rw [List.getElem?_eq_getElem (by rw [List.length_finRange]; exact i.isLt),
    List.getElem_finRange]
  exact congrArg some (Fin.ext rfl)

theorem printed_map_printf {F : Type} (f : Fin MAX_MOVIES → F) (l : List (Fin MAX_MOVIES)) :
    printed (l.map (fun (i : Fin MAX_MOVIES) => Event.printf i.val (f i)))
      = l.map (fun (i : Fin MAX_MOVIES) => (i.val, f i)) := by
  induction l with
  | nil => rfl
  | cons i l ih => simp only [List.map_cons, printed, ih]

/-- C2: for every final table, whatever the `float` operations, the report loop
of `main` prints exactly `MAX_MOVIES` lines, and for every `i < MAX_MOVIES` the
line at position `i` is the line of index `i` (so the indices run 0, 1, ...,
`MAX_MOVIES - 1` with no gap and no duplicate), carrying
`(float) sumRating[i] / count[i]` when `count[i] > 0` and `0.0` otherwise. -/
theorem report_lines {F : Type} (fl : FloatOps F) (d : ShareData) :
    (report fl d).length = MAX_MOVIES ∧
    printed (report fl d) = (List.finRange MAX_MOVIES).map (fun (i : Fin MAX_MOVIES) => (i.val,
        if d.count i > 0 then fl.div (fl.ofInt (d.sumRating i)) (fl.ofInt (d.count i))
          else fl.zero)) ∧
    ∀ i : Fin MAX_MOVIES, (report fl d)[i.val]? = some (Event.printf i.val
        (if d.count i > 0 then fl.div (fl.ofInt (d.sumRating i)) (fl.ofInt (d.count i))
          else fl.zero)) := by
  rw [report_eq_map]
  refine ⟨?_, ?_, ?_⟩
  · rw [List.length_map, List.length_finRange]
  · exact printed_map_printf _ _
  · intro i
    rw [List.getElem?_map, finRange_getElem?]
    rfl

theorem report_getElem? {F : Type} (fl : FloatOps F) (d : ShareData) (i : Fin MAX_MOVIES) :
    (report fl d)[i.val]? = some (Event.printf i.val
      (if d.count i > 0 then fl.div (fl.ofInt (d.sumRating i)) (fl.ofInt (d.count i))
        else fl.zero)) := by
  rw [report_eq_map, List.getElem?_map, finRange_getElem?]
  rfl

/-! ## The worker on partitions with a short line or an out-of-range item -/

theorem sum_addAt (c : Fin MAX_MOVIES → Int) (i : Fin MAX_MOVIES) (r : Int) :
    ∑ j : Fin MAX_MOVIES, addAt c i r j
      = (∑ j : Fin MAX_MOVIES, c j) + (wrapInt (c i + r) - c i) := by
  unfold addAt
  rw [Finset.sum_update_of_mem (Finset.mem_univ i), Finset.sdiff_singleton_eq_erase]
  have h := Finset.add_sum_erase Finset.univ c (Finset.mem_univ i)
  omega

theorem totalCount_zeroTable : totalCount zeroTable = 0 :=
  Finset.sum_eq_zero (fun _ _ => rfl)

/-- C4, the program on a failing input: the first partition is the single line
`7\t5` (two integer fields, so no valid record), the second partition is empty.
Both workers end with status 0, whatever their locals held at entry, and the
sum of `count[i]` over the table is 1 while the partitions hold 0 valid records. -/
theorem short_line_is_counted (init1 init2 : Vars) :
    ∃ d1 d2 : ShareData,
      read_and_process_file 2 (some "7\t5\n".toList) init1 zeroTable = Outcome.done (0, d1) ∧
      read_and_process_file 1 (some "".toList) init2 d1 = Outcome.done (0, d2) ∧
      totalCount d2 = 1 ∧
      specRecordCount "7\t5\n".toList + specRecordCount "".toList = 0 := by
  refine ⟨⟨addAt zeroTable.sumRating ⟨4, by decide⟩ init1.rating,
    addAt zeroTable.count ⟨4, by decide⟩ 1⟩, _, rfl, rfl, ?_, by decide⟩
  show ∑ j : Fin MAX_MOVIES, addAt zeroTable.count ⟨4, by decide⟩ 1 j = 1
  rw [sum_addAt]
  have h := totalCount_zeroTable
  unfold totalCount at h
  rw [h]
  rfl

/-- C5, the program on a failing input: for the parsed record `(1, 1683, 3, 0)`,
whose index 1682 is outside `[0, MAX_MOVIES)`, and for `(1, 0, 3, 0)`, whose index
is -1, the loop body has no bounds check and accesses `sumRating[index]` outside
the array; the worker reading the line `1\t1683\t3\t0` does not skip it. -/
theorem out_of_range_not_skipped (d : ShareData) (init : Vars) :
    loopBody d ⟨1, 1683, 3, 0⟩ = none ∧ loopBody d ⟨1, 0, 3, 0⟩ = none ∧
    read_and_process_file 2 (some "1\t1683\t3\t0\n".toList) init d = Outcome.undefined :=
  ⟨loopBody_eq_none d _ (by decide), loopBody_eq_none d _ (by decide), rfl⟩

/-- C6, the program on a failing input: on the partition made of the record
`1\t5\t4\t100` followed by the short line `7\t5`, the worker ends with status 0
and a table holding `sumRating[4] = 8` and `count[4] = 2` (the short line is
counted with the rating of the line before); with the short line first, it ends
with `sumRating[4] = 1`, `count[4] = 1` and `count[99] = 1`. -/
theorem short_line_corrupts_table (init : Vars) :
    (∃ d : ShareData,
      read_and_process_file 3 (some "1\t5\t4\t100\n7\t5\n".toList) init zeroTable
        = Outcome.done (0, d) ∧
      d.sumRating ⟨4, by decide⟩ = 8 ∧ d.count ⟨4, by decide⟩ = 2) ∧
    (∃ d : ShareData,
      read_and_process_file 3 (some "7\t5\n1\t5\t4\t100\n".toList) init zeroTable
        = Outcome.done (0, d) ∧
      d.sumRating ⟨4, by decide⟩ = 1 ∧ d.count ⟨4, by decide⟩ = 1 ∧
      d.count ⟨99, by decide⟩ = 1) :=
  ⟨⟨_, rfl, rfl, rfl⟩, ⟨_, rfl, rfl, rfl, rfl⟩⟩

/-! ## The coordinator -/

theorem printed_append {F : Type} (a b : List (Event F)) :
    printed (a ++ b) = printed a ++ printed b := by
  induction a with
  | nil => rfl
  | cons e a ih => cases e <;> simp [printed, ih]

theorem released_append {F : Type} (a b : List (Event F)) :
    released (a ++ b) = (released a || released b) := by
  induction a with
  | nil => rfl
  | cons e a ih => cases e <;> simp [released, ih]

theorem printed_report {F : Type} (fl : FloatOps F) (d : ShareData) :
    printed (report fl d) = (List.finRange MAX_MOVIES).map (fun (i : Fin MAX_MOVIES) => (i.val,
      if d.count i > 0 then fl.div (fl.ofInt (d.sumRating i)) (fl.ofInt (d.count i))
        else fl.zero)) := by
  rw [report_eq_map]
  exact printed_map_printf _ _

theorem main_abort_first {F : Type} (fl : FloatOps F) (e : Env)
    (h0 : 0 ≤ e.shmid) (h1 : e.shmatOk = true) (h2 : 0 < e.pid1) (h3 : 0 < e.pid2)
    (hs : (WIFEXITED e.status1 && WEXITSTATUS e.status1 != 0) = true) :
    main fl e = MainResult.exit
      [Event.memset, Event.fork, Event.fork, Event.waitpid 1, Event.shmdt, Event.shmctl_rmid]
      1 := by
  unfold main
  rw [if_neg (by omega), if_neg (by simp [h1]), if_neg (by omega), if_neg (by omega),
    if_neg (by omega), if_neg (by omega), if_pos hs]

theorem main_abort_second {F : Type} (fl : FloatOps F) (e : Env)
    (h0 : 0 ≤ e.shmid) (h1 : e.shmatOk = true) (h2 : 0 < e.pid1) (h3 : 0 < e.pid2)
    (hs1 : ¬ (WIFEXITED e.status1 && WEXITSTATUS e.status1 != 0) = true)
    (hs2 : (WIFEXITED e.status2 && WEXITSTATUS e.status2 != 0) = true) :
    main fl e = MainResult.exit
      [Event.memset, Event.fork, Event.fork, Event.waitpid 1, Event.waitpid 2, Event.shmdt,
        Event.shmctl_rmid] 1 := by
  unfold main
  rw [if_neg (by omega), if_neg (by simp [h1]), if_neg (by omega), if_neg (by omega),
    if_neg (by omega), if_neg (by omega), if_neg hs1, if_pos hs2]

theorem main_report_path {F : Type} (fl : FloatOps F) (e : Env)
    (h0 : 0 ≤ e.shmid) (h1 : e.shmatOk = true) (h2 : 0 < e.pid1) (h3 : 0 < e.pid2)
    (hs1 : ¬ (WIFEXITED e.status1 && WEXITSTATUS e.status1 != 0) = true)
    (hs2 : ¬ (WIFEXITED e.status2 && WEXITSTATUS e.status2 != 0) = true) :
    main fl e = MainResult.exit
      ([Event.memset, Event.fork, Event.fork, Event.waitpid 1, Event.waitpid 2]
        ++ report fl e.table ++ [Event.shmdt, Event.shmctl_rmid]) 0 := by
  unfold main
  rw [if_neg (by omega), if_neg (by simp [h1]), if_neg (by omega), if_neg (by omega),
    if_neg (by omega), if_neg (by omega), if_neg hs1, if_neg hs2]

theorem failed_iff (status : Nat) :
    (WIFEXITED status && WEXITSTATUS status != 0) = true
      ↔ (WIFEXITED status = true ∧ WEXITSTATUS status ≠ 0) := by
  simp

theorem printed_report_path {F : Type} (fl : FloatOps F) (d : ShareData) :
    printed ([Event.memset, Event.fork, Event.fork, Event.waitpid 1, Event.waitpid 2]
        ++ report fl d ++ [Event.shmdt, Event.shmctl_rmid]) = printed (report fl d) := by
  rw [printed_append, printed_append]
  show [] ++ printed (report fl d) ++ [] = printed (report fl d)
  rw [List.nil_append, List.append_nil]

theorem released_report_path {F : Type} (fl : FloatOps F) (d : ShareData) :
    released ([Event.memset, Event.fork, Event.fork, Event.waitpid 1, Event.waitpid 2]
        ++ report fl d ++ [Event.shmdt, Event.shmctl_rmid]) = true := by
  rw [released_append]
  show (_ || true) = true
  exact Bool.or_true _

/-- C7, the program on a failing input: with the first worker killed by signal 11
(wait status 11, which is not a normal exit with code 0) and the second worker
exited with code 0, neither guard of lines 90 and 98 fires: the coordinator
prints all `MAX_MOVIES` report lines and exits 0. -/
theorem signalled_worker_is_reported :
    ¬ (WIFEXITED 11 = true ∧ WEXITSTATUS 11 = 0) ∧
    ∃ evs : List (Event ℚ),
      main ratOps ⟨3, true, 100, 101, 11, 0, zeroTable⟩ = MainResult.exit evs 0 ∧
      (printed evs).length = MAX_MOVIES := by
  refine ⟨by decide, _, main_report_path ratOps ⟨3, true, 100, 101, 11, 0, zeroTable⟩
    (by decide) rfl (by decide) (by decide) (by decide) (by decide), ?_⟩
  rw [printed_report_path, printed_report, List.length_map, List.length_finRange]

/-- The two guards of lines 90 and 98, after both forks succeeded: when one of
the wait statuses is a normal exit with a nonzero code, `main` prints no report
line, removes the shared table and exits with status 1; when neither is, it
goes on to the report loop, removes the shared table and exits with status 0. -/
theorem main_worker_statuses {F : Type} (fl : FloatOps F) (e : Env)
    (h0 : 0 ≤ e.shmid) (h1 : e.shmatOk = true) (h2 : 0 < e.pid1) (h3 : 0 < e.pid2) :
    (((WIFEXITED e.status1 = true ∧ WEXITSTATUS e.status1 ≠ 0) ∨
        (WIFEXITED e.status2 = true ∧ WEXITSTATUS e.status2 ≠ 0)) →
      ∃ evs : List (Event F), main fl e = MainResult.exit evs 1 ∧
        printed evs = [] ∧ released evs = true) ∧
    ((¬ (WIFEXITED e.status1 = true ∧ WEXITSTATUS e.status1 ≠ 0) ∧
        ¬ (WIFEXITED e.status2 = true ∧ WEXITSTATUS e.status2 ≠ 0)) →
      ∃ evs : List (Event F), main fl e = MainResult.exit evs 0 ∧
        printed evs = (List.finRange MAX_MOVIES).map (fun (i : Fin MAX_MOVIES) => (i.val,
          if e.table.count i > 0 then
            fl.div (fl.ofInt (e.table.sumRating i)) (fl.ofInt (e.table.count i))
          else fl.zero)) ∧
        (printed evs).length = MAX_MOVIES ∧ released evs = true) := by
  constructor
  · intro h
    by_cases hs1 : (WIFEXITED e.status1 && WEXITSTATUS e.status1 != 0) = true
    · exact ⟨_, main_abort_first fl e h0 h1 h2 h3 hs1, rfl, rfl⟩
    · have hs2 : (WIFEXITED e.status2 && WEXITSTATUS e.status2 != 0) = true := by
        rcases h with h | h
        · exact absurd ((failed_iff _).mpr h) hs1
        · exact (failed_iff _).mpr h
      exact ⟨_, main_abort_second fl e h0 h1 h2 h3 hs1 hs2, rfl, rfl⟩
  · intro h
    have hs1 : ¬ (WIFEXITED e.status1 && WEXITSTATUS e.status1 != 0) = true :=
      fun c => h.1 ((failed_iff _).mp c)
    have hs2 : ¬ (WIFEXITED e.status2 && WEXITSTATUS e.status2 != 0) = true :=
      fun c => h.2 ((failed_iff _).mp c)
    refine ⟨_, main_report_path fl e h0 h1 h2 h3 hs1 hs2, ?_, ?_, released_report_path fl _⟩
    · rw [printed_report_path, printed_report]
    · rw [printed_report_path, printed_report, List.length_map, List.length_finRange]

/-- The guards on a concrete run: the first worker exits with code 1 (wait status
256), the second with code 0. -/
theorem main_worker_statuses_witness :
    ((0 : Int) ≤ 3 ∧ true = true ∧ (0 : Int) < 100 ∧ (0 : Int) < 101) ∧
    (WIFEXITED 256 = true ∧ WEXITSTATUS 256 ≠ 0) ∧
    ∃ evs : List (Event ℚ),
      main ratOps ⟨3, true, 100, 101, 256, 0, zeroTable⟩ = MainResult.exit evs 1 ∧
      printed evs = [] ∧ released evs = true :=
  ⟨by decide, by decide,
    (main_worker_statuses ratOps ⟨3, true, 100, 101, 256, 0, zeroTable⟩
      (by decide) rfl (by decide) (by decide)).1 (Or.inl (by decide))⟩

/-- C8, the program on a failing input: when the first `fork` returns -1, or the
second one does, after `shmget` and `shmat` succeeded, the coordinator calls
`perror` and exits with status 1 without `shmctl(shmid, IPC_RMID, NULL)`. -/
theorem fork_failure_leaks_table :
    (∃ evs : List (Event ℚ),
      main ratOps ⟨3, true, -1, 0, 0, 0, zeroTable⟩ = MainResult.exit evs 1 ∧
      released evs = false) ∧
    (∃ evs : List (Event ℚ),
      main ratOps ⟨3, true, 100, -1, 0, 0, zeroTable⟩ = MainResult.exit evs 1 ∧
      released evs = false) :=
  ⟨⟨[Event.memset, Event.fork, Event.perror "First fork failed"], rfl, rfl⟩,
    ⟨[Event.memset, Event.fork, Event.fork, Event.perror "Second fork failed"], rfl, rfl⟩⟩

/-! ## Two workers on the same slot -/

/-- A worker alone on the table: from the head of the loop, when `fscanf` does not
return `EOF` and the index is in range, five steps bring the worker back to the
head of the loop with the table that one run of the loop body produces. -/
theorem runAlone_iteration (input : List Char) (v : Vars) (reg : Int) (d : ShareData)
    (hret : (fscanf input v).ret ≠ EOF)
    (h : 0 ≤ index (fscanf input v).vars ∧ index (fscanf input v).vars < (MAX_MOVIES : Int)) :
    ∃ reg' : Int,
      (runAlone 5 ⟨Pc.scan, input, v, reg⟩ d).map (fun r => (r.1.pc, r.1.input, r.1.v, r.2))
        = (loopBody d (fscanf input v).vars).map
            (fun d' => (Pc.scan, (fscanf input v).rest, (fscanf input v).vars, d')) ∧
      (runAlone 5 ⟨Pc.scan, input, v, reg⟩ d).map (fun r => r.1.reg) = some reg' := by
  refine ⟨d.count ⟨(index (fscanf input v).vars).toNat, by omega⟩, ?_, ?_⟩
  · rw [loopBody_eq_some d _ h]
    simp only [runAlone, stepProc, if_pos hret, dif_pos h, Option.map_some', addAt]
  · simp only [runAlone, stepProc, if_pos hret, dif_pos h, Option.map_some']

/-- C9, the program on a failing schedule: partition A is the line `1\t5\t4\t0`,
partition B the line `2\t5\t2\t0`. When the two workers move in turn (each reads
`sumRating[4]` before the other has stored, and likewise `count[4]`), both leave
their loop and the table ends with `sumRating[4] = 2` and `count[4] = 1`, so the
report line of index 4 carries 2 / 1; when worker A runs to its end before
worker B starts, the table ends with `sumRating[4] = 6` and `count[4] = 2`. -/
theorem interleaved_update_is_lost (init1 init2 : Vars) :
    (∃ s : Sys,
      runSchedule [false, true, false, true, false, true, false, true, false, true, false, true]
        ⟨startProc "1\t5\t4\t0\n".toList init1, startProc "2\t5\t2\t0\n".toList init2,
          zeroTable⟩ = some s ∧
      s.w1.pc = Pc.exited ∧ s.w2.pc = Pc.exited ∧
      s.table.sumRating ⟨4, by decide⟩ = 2 ∧ s.table.count ⟨4, by decide⟩ = 1 ∧
      (report ratOps s.table)[4]? = some (Event.printf 4 (2 / 1))) ∧
    (∃ s : Sys,
      runSchedule [false, false, false, false, false, false, true, true, true, true, true, true]
        ⟨startProc "1\t5\t4\t0\n".toList init1, startProc "2\t5\t2\t0\n".toList init2,
          zeroTable⟩ = some s ∧
      s.w1.pc = Pc.exited ∧ s.w2.pc = Pc.exited ∧
      s.table.sumRating ⟨4, by decide⟩ = 6 ∧ s.table.count ⟨4, by decide⟩ = 2) := by
  refine ⟨⟨_, rfl, rfl, rfl, rfl, rfl, ?_⟩, ⟨_, rfl, rfl, rfl, rfl, rfl⟩⟩
  exact report_getElem? ratOps _ ⟨4, by decide⟩

end Ex41

namespace Problem1

open Ex41

/-! ## The report of `Lab2/problem-1.c` -/

theorem foldl_printStep {F : Type} (avg : Fin MAX_MOVIES → F) (l : List (Fin MAX_MOVIES))
    (out : List (Event F)) :
    l.foldl (fun s i => printStep avg i s) out
      = out ++ l.map (fun (i : Fin MAX_MOVIES) => Event.printf i.val (avg i)) := by
  induction l generalizing out with
  | nil => rw [List.foldl_nil, List.map_nil, List.append_nil]
  | cons i l ih =>
    rw [List.foldl_cons, ih, List.map_cons]
    unfold printStep
    rw [List.append_assoc, List.singleton_append]

theorem foldl_averageStep_of_count_le {F : Type} (fl : FloatOps F) (d : ShareData)
    (l : List (Fin MAX_MOVIES)) (g : Fin MAX_MOVIES → F) (j : Fin MAX_MOVIES)
    (hj : ¬ d.count j > 0) :
    (l.foldl (fun a i => averageStep fl d i a) g) j = g j := by
  induction l generalizing g with
  | nil => rfl
  | cons i l ih =>
    rw [List.foldl_cons, ih]
    unfold averageStep
    by_cases hi : d.count i > 0
    · rw [if_pos hi]
      have hne : j ≠ i := fun e => hj (e ▸ hi)
      exact Function.update_noteq hne _ _
    · rw [if_neg hi]

theorem report_getElem?_of_count_le {F : Type} (fl : FloatOps F) (d : ShareData)
    (garbage : Fin MAX_MOVIES → F) (i : Fin MAX_MOVIES) (hi : ¬ d.count i > 0) :
    (report fl d garbage)[i.val]? = some (Event.printf i.val (garbage i)) := by
  delta report
  rw [forEachIndex_eq, forEachIndex_eq, foldl_printStep, List.nil_append, List.getElem?_map,
    finRange_getElem?]
  show some (Event.printf i.val _) = _
  rw [foldl_averageStep_of_count_le fl d _ garbage i hi]

/-- C10, the program on a failing input: on the zero table (no record was
counted, so `count[i] == 0` for every `i`), with the uninitialised local array
`avg_ratings` holding 1 in every entry, every report line of
`Lab2/problem-1.c` carries 1, not 0: the first loop assigns `avg_ratings[i]`
only under `count[i] > 0` and the second loop prints it regardless. -/
theorem unassigned_average_is_printed :
    (∀ i : Fin MAX_MOVIES, zeroTable.count i = 0) ∧
    (∀ i : Fin MAX_MOVIES,
      (report ratOps zeroTable (fun _ => (1 : ℚ)))[i.val]? = some (Event.printf i.val 1)) ∧
    (1 : ℚ) ≠ 0 :=
  ⟨fun _ => rfl,
    fun i => report_getElem?_of_count_le ratOps zeroTable (fun _ => 1) i (lt_irrefl (0 : Int)),
    one_ne_zero⟩

end Problem1

namespace Cnew

/-! ## The two builds of `isValidProjectName` -/

theorem bracket_contains_iff (c : Char) :
    Bracket.contains ⟨[('a', 'z'), ('A', 'Z'), ('0', '9')], ['-']⟩ c = isNameChar c := by
  simp [Bracket.contains, isNameChar, Bool.or_assoc]

theorem nameLoop_eq_zero_iff (name : List Char) :
    nameLoop name = 0 ↔ ∀ c ∈ name, isNameChar c = true := by
  induction name with
  | nil => simp [nameLoop]
  | cons c cs ih =>
    unfold nameLoop
    by_cases h : isNameChar c = true
    · simp [h, ih]
    · simp [h]

theorem plusMatch_eol_iff (b : Bracket) (s : List Char) :
    plusMatch b (matchAt [Node.eol] false) s = true
      ↔ s ≠ [] ∧ ∀ c ∈ s, b.contains c = true := by
  induction s with
  | nil => simp [plusMatch]
  | cons c cs ih =>
    unfold plusMatch
    cases cs with
    | nil => simp [matchAt, plusMatch]
    | cons e es =>
      have h1 : matchAt [Node.eol] false (e :: es) = false := by simp [matchAt]
      rw [h1, Bool.false_or, Bool.and_eq_true, ih]
      simp

theorem searchFrom_pattern_false (s : List Char) : searchFrom pattern false s = false := by
  induction s with
  | nil => simp [searchFrom, pattern, matchAt]
  | cons c cs ih =>
    unfold searchFrom
    rw [ih]
    simp [pattern, matchAt]

theorem searchFrom_pattern_iff (name : List Char) :
    searchFrom pattern true name = true
      ↔ name ≠ [] ∧ ∀ c ∈ name, isNameChar c = true := by
  have key : ∀ s : List Char, matchAt pattern true s = true
      ↔ s ≠ [] ∧ ∀ c ∈ s, isNameChar c = true := by
    intro s
    have h := plusMatch_eol_iff ⟨[('a', 'z'), ('A', 'Z'), ('0', '9')], ['-']⟩ s
    simp only [bracket_contains_iff] at h
    simpa [pattern, matchAt] using h
  cases name with
  | nil =>
    unfold searchFrom
    exact key []
  | cons c cs =>
    unfold searchFrom
    rw [searchFrom_pattern_false, Bool.or_false]
    exact key (c :: cs)

/-- C11, the program on a failing input: the empty name consists only of letters,
digits and hyphens (it has no other character); the regex build returns -1 on
it and the character-loop build returns 0, so the two builds of the function do
not accept the same names. -/
theorem empty_name_splits_builds :
    (∀ c ∈ ([] : List Char), isNameChar c = true) ∧
    isValidProjectName true 0 [] = -1 ∧ isValidProjectName false 0 [] = 0 :=
  ⟨fun _ h => absurd h (List.not_mem_nil _), by decide, by decide⟩

/-- What each build computes: the regex build (with `regcomp` succeeding) returns
0 exactly on the non-empty names made of letters, digits and hyphens, the
character loop returns 0 exactly on the names made of letters, digits and
hyphens; the two return values agree in being 0 on every non-empty name. -/
theorem isValidProjectName_accepts (name : List Char) (regcompRet : Int) :
    (isValidProjectName true 0 name = 0
      ↔ name ≠ [] ∧ ∀ c ∈ name, isNameChar c = true) ∧
    (isValidProjectName false regcompRet name = 0 ↔ ∀ c ∈ name, isNameChar c = true) ∧
    (name ≠ [] →
      (isValidProjectName true 0 name = 0 ↔ isValidProjectName false regcompRet name = 0)) := by
  have hre : isValidProjectName true 0 name = 0
      ↔ name ≠ [] ∧ ∀ c ∈ name, isNameChar c = true := by
    rw [← searchFrom_pattern_iff]
    unfold isValidProjectName regexec
    by_cases h : searchFrom pattern true name = true
    · simp [h]
    · simp [h, REG_NOMATCH]
  have hloop : isValidProjectName false regcompRet name = 0
      ↔ ∀ c ∈ name, isNameChar c = true := by
    rw [← nameLoop_eq_zero_iff]
    unfold isValidProjectName
    simp
  refine ⟨hre, hloop, ?_⟩
  intro hne
  rw [hre, hloop]
  exact ⟨fun h => h.2, fun h => ⟨hne, h⟩⟩

/-- The two builds on the name `my-project`: it is not empty and both return 0. -/
theorem isValidProjectName_accepts_witness :
    "my-project".toList ≠ [] ∧
    (isValidProjectName true 0 "my-project".toList = 0
      ↔ isValidProjectName false 0 "my-project".toList = 0) ∧
    isValidProjectName true 0 "my-project".toList = 0 :=
  ⟨by decide,
    (isValidProjectName_accepts "my-project".toList 0).2.2 (by decide),
    by decide⟩

end Cnew

namespace Ex41

/-! ## The worker on a line that is not a number -/

theorem workerLoop_stuck (fuel : Nat) (d : ShareData) :
    workerLoop fuel "abc\n".toList ⟨1, 5, 4, 100⟩ d = Outcome.outOfFuel := by
  induction fuel generalizing d with
  | zero => rfl
  | succ n ih =>
    unfold workerLoop
    have hf : fscanf "abc\n".toList ⟨1, 5, 4, 100⟩ = ⟨0, ⟨1, 5, 4, 100⟩, "abc\n".toList⟩ := by
      decide
    rw [hf]
    rw [if_pos (by decide), loopBody_eq_some d ⟨1, 5, 4, 100⟩ (by decide)]
    exact ih _

/-- C12, the program on a failing input: on the partition made of the record
`1\t5\t4\t100` and the line `abc`, the worker never reaches the end of the
input: whatever number of calls of `fscanf` it is given, and whatever its locals
held at entry, it is still in the loop when they are spent. -/
theorem worker_never_ends (fuel : Nat) (init : Vars) :
    read_and_process_file fuel (some "1\t5\t4\t100\nabc\n".toList) init zeroTable
      = Outcome.outOfFuel := by
  cases fuel with
  | zero => rfl
  | succ n =>
    cases n with
    | zero => rfl
    | succ m =>
      have h : workerLoop (m + 2) "1\t5\t4\t100\nabc\n".toList init zeroTable
          = workerLoop m "abc\n".toList ⟨1, 5, 4, 100⟩
              ⟨addAt (addAt zeroTable.sumRating ⟨4, by decide⟩ 4) ⟨4, by decide⟩ 4,
                addAt (addAt zeroTable.count ⟨4, by decide⟩ 1) ⟨4, by decide⟩ 1⟩ := rfl
      unfold read_and_process_file
      simp only []
      rw [h, workerLoop_stuck]

end Ex41
